import Mathlib

/-!
Verification of the chunked file-transfer core of the File-Sharing repository,
shallowly embedded from src/frontend/src/pages/peerConnection.tsx.

Modelling conventions:
* JS numbers that hold times, latencies and progress are modelled as rationals
  (ℚ); array lengths and byte counts as naturals.  The only floating-point
  computations the embedded code performs on these values (sums, differences,
  divisions by 1000 and 1024*1024, and `Math.floor(n * 0.95)` /
  `Math.floor(n * 0.99)` for array lengths `n < 2^32`) agree exactly with the
  rational semantics used here; in particular `Math.floor(n * 0.95) = 19*n/20`
  and `Math.floor(n * 0.99) = 99*n/100` in natural-number division for every
  array length `n`.
* `ArrayBuffer`s are lists of naturals (one per byte).
* The receiver's slot array `chunks` (a JS array allocated by
  `new Array(totalChunks)`, holes = unfilled slots) is a `List (Option _)`
  with `none` for a hole.  Slot writes use `List.set`; the protocol only ever
  writes indices `0 ≤ i < totalChunks`, where `List.set` and the JS
  assignment agree.
-/

namespace FileSharing

/-- `CHUNK_SIZE = 256 * 1024` (256 KB), from peerConnection.tsx. -/
def CHUNK_SIZE : Nat := 256 * 1024

/-- `totalChunks = Math.ceil(arrayBuffer.byteLength / CHUNK_SIZE)` from
`sendFile`: ceiling division on naturals. -/
def totalChunksOf (n c : Nat) : Nat := (n + c - 1) / c

/-- The slice the sender's chunk loop takes at index `i`:
`arrayBuffer.slice(i*CHUNK_SIZE, Math.min(i*CHUNK_SIZE + CHUNK_SIZE, byteLength))`. -/
def sliceChunk (payload : List Nat) (c i : Nat) : List Nat :=
  (payload.drop (i * c)).take c

/-- The sequence of chunk payloads produced by the sender's loop
`for (let i = 0; i < totalChunks; i++)`. -/
def splitChunks (payload : List Nat) (c : Nat) : List (List Nat) :=
  (List.range (totalChunksOf payload.length c)).map (sliceChunk payload c)

/-- Receiver-side assembly `new Blob(receivingFile.current.chunks)`:
concatenation of the slot array in index order.  An unfilled slot (hole)
contributes no bytes; on the happy path every slot is filled. -/
def assembleSlots (slots : List (Option (List Nat))) : List Nat :=
  (slots.map (fun s => s.getD [])).flatten

theorem totalChunksOf_zero (c : Nat) : totalChunksOf 0 c = 0 := by
  unfold totalChunksOf
  cases c with
  | zero => rfl
  | succ c =>
    rw [show 0 + (c + 1) - 1 = c by omega]
    exact Nat.div_eq_of_lt (by omega)

theorem totalChunksOf_of_pos {n : Nat} (c : Nat) (hc : 1 ≤ c) (hn : 1 ≤ n) :
    totalChunksOf n c = (n - 1) / c + 1 := by
  unfold totalChunksOf
  rw [show n + c - 1 = (n - 1) + c by omega, Nat.add_div_right _ (by omega)]

theorem totalChunksOf_step {n : Nat} (c : Nat) (hc : 1 ≤ c) (hn : 1 ≤ n) :
    totalChunksOf n c = totalChunksOf (n - c) c + 1 := by
  by_cases h : n ≤ c
  · rw [totalChunksOf_of_pos c hc hn, show n - c = 0 by omega, totalChunksOf_zero]
    rw [Nat.div_eq_of_lt (by omega)]
  · rw [totalChunksOf_of_pos c hc hn,
      totalChunksOf_of_pos c hc (by omega : 1 ≤ n - c),
      show n - 1 = (n - c - 1) + c by omega, Nat.add_div_right _ (by omega)]

theorem splitChunks_nil (c : Nat) : splitChunks [] c = [] := by
  simp [splitChunks, totalChunksOf_zero]

theorem splitChunks_cons (c : Nat) (hc : 1 ≤ c) (p : List Nat) (hp : p ≠ []) :
    splitChunks p c = p.take c :: splitChunks (p.drop c) c := by
  have hn : 1 ≤ p.length := List.length_pos.mpr hp
  unfold splitChunks
  rw [List.length_drop, totalChunksOf_step c hc hn, List.range_succ_eq_map]
  simp only [List.map_cons, List.map_map]
  congr 1
  · simp [sliceChunk]
  · exact List.map_congr_left fun i _ => by
      simp [sliceChunk, Function.comp, List.drop_drop, Nat.succ_mul, Nat.add_comm]

theorem join_splitChunks_fuel (c : Nat) (hc : 1 ≤ c) :
    ∀ (fuel : Nat) (p : List Nat), p.length ≤ fuel → (splitChunks p c).flatten = p := by
  intro fuel
  induction fuel with
  | zero =>
    intro p hp
    have : p = [] := List.eq_nil_of_length_eq_zero (Nat.le_zero.mp hp)
    subst this
    simp [splitChunks_nil]
  | succ n ih =>
    intro p hp
    by_cases hpe : p = []
    · subst hpe; simp [splitChunks_nil]
    · rw [splitChunks_cons c hc p hpe, List.flatten_cons,
        ih (p.drop c) (by
          rw [List.length_drop]
          have : 1 ≤ p.length := List.length_pos.mpr hpe
          omega)]
      exact List.take_append_drop c p

theorem join_splitChunks (c : Nat) (hc : 1 ≤ c) (p : List Nat) :
    (splitChunks p c).flatten = p :=
  join_splitChunks_fuel c hc p.length p (Nat.le_refl _)

/-- Result record of `calculatePercentiles`. -/
structure Percentiles where
  p95 : ℚ
  p99 : ℚ
  avg : ℚ
deriving DecidableEq, Repr

/-- `calculatePercentiles` from peerConnection.tsx.  The source computes
`sorted[p95Index] || sorted[sorted.length - 1]`: the JS `||` falls back to the
last element both when the index is out of bounds (`undefined` is falsy) and
when the selected element is the number `0` (also falsy).  `List.getD _ 0`
yields `0` out of bounds, so the single test `= 0` captures both falsy cases. -/
def calculatePercentiles (latencies : List ℚ) : Percentiles :=
  if latencies.length = 0 then ⟨0, 0, 0⟩
  else
    let sorted := latencies.insertionSort (· ≤ ·)
    let p95Index := 19 * sorted.length / 20
    let p99Index := 99 * sorted.length / 100
    { p95 := if sorted.getD p95Index 0 = 0 then sorted.getD (sorted.length - 1) 0
             else sorted.getD p95Index 0,
      p99 := if sorted.getD p99Index 0 = 0 then sorted.getD (sorted.length - 1) 0
             else sorted.getD p99Index 0,
      avg := sorted.sum / sorted.length }

/-- `throughput = (bytesTransferred / (1024 * 1024)) / durationSeconds`, MB/s
with the binary megabyte, as computed in both `sendFile` and
`handleReceivedData`. -/
def throughputMBps (bytes : Nat) (durationSec : ℚ) : ℚ :=
  (bytes : ℚ) / (1024 * 1024) / durationSec

/-- The `PerformanceMetrics` record of peerConnection.tsx. -/
structure PerformanceMetrics where
  startTime : ℚ
  endTime : Option ℚ
  bytesTransferred : Nat
  latencies : List ℚ
  throughput : Option ℚ
  p95Latency : Option ℚ
  p99Latency : Option ℚ
  averageLatency : Option ℚ
  encrypted : Bool
deriving DecidableEq

/-- The receiver's inbound transfer entity (`receivingFile.current`). -/
structure ReceivingFile where
  name : String
  size : Nat
  chunks : List (Option (List Nat))
  receivedChunks : Nat
  totalChunks : Nat
  metrics : PerformanceMetrics
  encrypted : Bool
deriving DecidableEq

/-- The wire-message union `FileMessage` of peerConnection.tsx. -/
inductive FileMessage where
  | keyExchange (keyData : List Nat)
  | fileStart (fileName : String) (fileSize : Nat) (totalChunks : Nat)
      (encrypted : Bool)
  | chunk (data : List Nat) (chunkIndex : Nat) (totalChunks : Nat)
      (fileName : String) (fileSize : Nat) (timestamp : ℚ)
      (iv : Option (List Nat))
  | fileEnd (fileName : String)
deriving DecidableEq

/-- The receiver-relevant component state: the `receivingFile` ref, the
`isTransferring` / `transferProgress` / `metrics` React state, the list of
files handed to `downloadFile`, and whether `encryptionKeyRef` is set. -/
structure ReceiverState where
  receivingFile : Option ReceivingFile
  isTransferring : Bool
  transferProgress : ℚ
  lastMetrics : Option PerformanceMetrics
  downloads : List (List Nat × String)
  hasKey : Bool
deriving DecidableEq

/-- Fresh metrics allocated by the `file-start` branch. -/
def freshMetrics (now : ℚ) (enc : Bool) : PerformanceMetrics :=
  { startTime := now, endTime := none, bytesTransferred := 0, latencies := [],
    throughput := none, p95Latency := none, p99Latency := none,
    averageLatency := none, encrypted := enc }

/-- `handleReceivedData` from peerConnection.tsx, one message at a time.
`dec ciphertext iv` models `FileEncryption.decrypt` with the session key
(`none` = the AES-GCM tag failed to verify, i.e. the `catch` path); `now`
models `Date.now()` during this handler run.  Transcription notes:
* `file-start` unconditionally overwrites `receivingFile.current` with a fresh
  entity (`new Array(totalChunks)` = all-`none` slots) and resets progress.
* the `chunk` branch is guarded by `if (receivingFile.current)`;
* the latency push happens before decryption, so a failed decryption still
  records the latency and then returns early from the handler;
* `receivedChunks` is incremented on every stored chunk — the code does not
  check whether the slot was already occupied;
* completion is detected by `receivedChunks === totalChunks`, computing all
  derived metrics at once, delivering the blob, and clearing the entity;
* `file-end` does nothing. -/
def handleReceivedData (dec : List Nat → List Nat → Option (List Nat)) (now : ℚ)
    (s : ReceiverState) (msg : FileMessage) : ReceiverState :=
  match msg with
  | .keyExchange _ => { s with hasKey := true }
  | .fileStart fileName fileSize total enc =>
      { s with
        receivingFile := some
          { name := fileName, size := fileSize,
            chunks := List.replicate total none,
            receivedChunks := 0, totalChunks := total,
            metrics := freshMetrics now enc, encrypted := enc },
        isTransferring := true, transferProgress := 0 }
  | .chunk data chunkIndex _ _ _ timestamp iv =>
      match s.receivingFile with
      | none => s
      | some rf =>
        let latency := now - timestamp
        let rf1 : ReceivingFile :=
          { rf with metrics :=
              { rf.metrics with latencies := rf.metrics.latencies ++ [latency] } }
        let plain : Option (List Nat) :=
          if rf1.encrypted = true ∧ s.hasKey = true ∧ iv.isSome = true then
            dec data (iv.getD [])
          else some data
        match plain with
        | none => { s with receivingFile := some rf1 }
        | some chunkData =>
          let rf2 : ReceivingFile :=
            { rf1 with
              chunks := rf1.chunks.set chunkIndex (some chunkData),
              receivedChunks := rf1.receivedChunks + 1,
              metrics :=
                { rf1.metrics with
                  bytesTransferred := rf1.metrics.bytesTransferred + data.length } }
          if rf2.receivedChunks = rf2.totalChunks then
            let pct := calculatePercentiles rf2.metrics.latencies
            let m : PerformanceMetrics :=
              { rf2.metrics with
                endTime := some now,
                throughput := some (throughputMBps rf2.metrics.bytesTransferred
                  ((now - rf2.metrics.startTime) / 1000)),
                p95Latency := some pct.p95, p99Latency := some pct.p99,
                averageLatency := some pct.avg }
            { s with
              receivingFile := none
              isTransferring := false
              transferProgress := 100
              lastMetrics := some m
              downloads := s.downloads ++ [(assembleSlots rf2.chunks, rf2.name)] }
          else
            { s with
              receivingFile := some rf2
              transferProgress :=
                (rf2.receivedChunks : ℚ) / (rf2.totalChunks : ℚ) * 100 }
  | .fileEnd _ => s

/-- Folding `handleReceivedData` over a sequence of `(Date.now(), message)`
events, in arrival order. -/
def runReceiver (dec : List Nat → List Nat → Option (List Nat))
    (s : ReceiverState) (events : List (ℚ × FileMessage)) : ReceiverState :=
  events.foldl (fun st e => handleReceivedData dec e.1 st e.2) s

/-- Receiver state before any message: `receivingFile.current = null`. -/
def initialReceiver : ReceiverState :=
  { receivingFile := none, isTransferring := false, transferProgress := 0,
    lastMetrics := none, downloads := [], hasKey := false }

/-- A `chunk` event carrying `d i` as data for index `i`, with all timestamps
zero and no IV (unencrypted transfer); the `totalChunks`, `fileName` and
`fileSize` fields of a chunk message are ignored by the receiver. -/
def chunkEvent (d : Nat → List Nat) (i : Nat) : ℚ × FileMessage :=
  (0, .chunk (d i) i 0 "" 0 0 none)

/-- `connectionStatus` values. -/
inductive ConnectionStatus where
  | disconnected
  | connecting
  | connected
deriving DecidableEq

/-- The sender-relevant component state: selected file, connection ref and
status, `isTransferring`, and the encryption/key-exchange flags. -/
structure SenderState where
  inputFile : Option (String × List Nat)
  hasConnection : Bool
  connectionStatus : ConnectionStatus
  isTransferring : Bool
  encryptionEnabled : Bool
  keyExchangeComplete : Bool
deriving DecidableEq

/-- The `chunk` messages emitted by `sendFile`'s loop, in index order.
`encFn i plaintext = (data, iv)` models the per-chunk
`FileEncryption.encrypt` call (identity with no IV when encryption is off);
`ts i` models `Date.now()` at iteration `i`. -/
def chunkMessages (encFn : Nat → List Nat → List Nat × Option (List Nat))
    (ts : Nat → ℚ) (fileName : String) (payload : List Nat) (c : Nat) :
    List FileMessage :=
  (List.range (totalChunksOf payload.length c)).map fun i =>
    .chunk (encFn i (sliceChunk payload c i)).1 i
      (totalChunksOf payload.length c) fileName payload.length (ts i)
      (encFn i (sliceChunk payload c i)).2

/-- The full message trace of one successful `sendFile` run: one `file-start`,
the chunk loop, one `file-end`. -/
def sendTrace (encFn : Nat → List Nat → List Nat × Option (List Nat))
    (ts : Nat → ℚ) (enc : Bool) (fileName : String) (payload : List Nat)
    (c : Nat) : List FileMessage :=
  FileMessage.fileStart fileName payload.length
      (totalChunksOf payload.length c) enc
    :: (chunkMessages encFn ts fileName payload c ++
        [FileMessage.fileEnd fileName])

/-- `sendFile` from peerConnection.tsx: the two early-return guards, then the
emission of the whole trace; on success `isTransferring` ends `false` (it is
set `true` at the start and back to `false` after `file-end`). -/
def sendFile (encFn : Nat → List Nat → List Nat × Option (List Nat))
    (ts : Nat → ℚ) (c : Nat) (s : SenderState) :
    SenderState × List FileMessage :=
  if s.inputFile = none ∨ s.hasConnection = false ∨
      s.connectionStatus ≠ ConnectionStatus.connected then (s, [])
  else if s.encryptionEnabled = true ∧ s.keyExchangeComplete = false then
    (s, [])
  else
    match s.inputFile with
    | none => (s, [])
    | some nf =>
      ({ s with isTransferring := false },
       sendTrace encFn ts s.encryptionEnabled nf.1 nf.2 c)

/-- The Send button's `disabled` predicate from the JSX:
`!inputFile || connectionStatus !== 'connected' || isTransferring ||
(encryptionEnabled && !keyExchangeComplete)`. -/
def sendButtonDisabled (s : SenderState) : Bool :=
  decide (s.inputFile = none) ||
    decide (s.connectionStatus ≠ ConnectionStatus.connected) ||
    s.isTransferring || (s.encryptionEnabled && !s.keyExchangeComplete)

/-- A user send request: the UI only invokes `sendFile` when the Send button
is enabled; a click on a disabled button does nothing. -/
def sendRequest (encFn : Nat → List Nat → List Nat × Option (List Nat))
    (ts : Nat → ℚ) (c : Nat) (s : SenderState) :
    SenderState × List FileMessage :=
  if sendButtonDisabled s then (s, []) else sendFile encFn ts c s

/-- Is a trace message a `file-start`? -/
def isFileStart : FileMessage → Bool
  | .fileStart _ _ _ _ => true
  | _ => false

/-- Is a trace message a `file-end`? -/
def isFileEnd : FileMessage → Bool
  | .fileEnd _ => true
  | _ => false

/-- The chunk index of a `chunk` message, `none` for the other kinds. -/
def chunkIndexOf : FileMessage → Option Nat
  | .chunk _ i _ _ _ _ _ => some i
  | _ => none

/-- C1: for every payload of `n ≥ 0` bytes and every chunk size `c ≥ 1`,
splitting the payload as the sender's chunk loop does (contiguous slices of
size `c`, last slice possibly shorter) and then assembling the slots in index
order `0..totalChunks-1` as the receiver's completion path does reproduces the
original payload byte-for-byte. -/
theorem split_assemble_roundtrip (payload : List Nat) (c : Nat) (hc : 1 ≤ c) :
    assembleSlots ((splitChunks payload c).map some) = payload := by
  unfold assembleSlots
  rw [List.map_map,
    show ((fun s : Option (List Nat) => s.getD []) ∘ some) = id from
      funext fun l => rfl,
    List.map_id]
  exact join_splitChunks c hc payload

/-- Witness for C1 at payload `[1,2,3,4,5]` and chunk size 2. -/
theorem split_assemble_roundtrip_witness :
    (1 ≤ 2) ∧ assembleSlots ((splitChunks [1,2,3,4,5] 2).map some) = [1,2,3,4,5] :=
  ⟨by decide, split_assemble_roundtrip [1,2,3,4,5] 2 (by decide)⟩

/-- If `g` is a left inverse of `f` into `Option`, `filterMap g` undoes
`map f`. -/
theorem filterMap_map_eq_self {α β : Type} (f : α → β) (g : β → Option α)
    (l : List α) (h : ∀ a, g (f a) = some a) : (l.map f).filterMap g = l := by
  induction l with
  | nil => rfl
  | cons a t ih => simp [List.filterMap_cons, h a, ih]

/-- C4: the sender computes `totalChunks = ceil(n/c)` (with the three concrete
instances of the spec) and emits exactly one `file-start`, exactly
`totalChunks` chunk messages whose indices are `0..totalChunks-1` in
increasing order, and exactly one `file-end`, for every per-chunk encryption
function and timestamp sequence. -/
theorem sendTrace_shape (c : Nat) (hc : 1 ≤ c)
    (encFn : Nat → List Nat → List Nat × Option (List Nat)) (ts : Nat → ℚ)
    (enc : Bool) (fileName : String) (payload : List Nat) :
    totalChunksOf (c * 10) c = 10 ∧
    totalChunksOf (c * 10 + 1) c = 11 ∧
    totalChunksOf 1 c = 1 ∧
    (sendTrace encFn ts enc fileName payload c).countP isFileStart = 1 ∧
    (sendTrace encFn ts enc fileName payload c).countP isFileEnd = 1 ∧
    (sendTrace encFn ts enc fileName payload c).filterMap chunkIndexOf =
      List.range (totalChunksOf payload.length c) := by
  refine ⟨?_, ?_, ?_, ?_, ?_, ?_⟩
  · unfold totalChunksOf
    rw [show c * 10 + c - 1 = (c - 1) + c * 10 by omega,
      Nat.add_mul_div_left _ _ (by omega : 0 < c),
      Nat.div_eq_of_lt (by omega)]
  · unfold totalChunksOf
    rw [show c * 10 + 1 + c - 1 = 0 + c * 11 by omega,
      Nat.add_mul_div_left _ _ (by omega : 0 < c), Nat.zero_div]
  · unfold totalChunksOf
    rw [show 1 + c - 1 = c by omega, Nat.div_self (by omega : 0 < c)]
  · simp [sendTrace, chunkMessages, isFileStart, List.countP_cons,
      List.countP_map, Function.comp]
  · simp [sendTrace, chunkMessages, isFileEnd, List.countP_cons,
      List.countP_map, Function.comp]
  · unfold sendTrace chunkMessages
    rw [List.filterMap_cons_none (by rfl), List.filterMap_append,
      List.filterMap_cons_none (by rfl), List.filterMap_nil, List.append_nil]
    exact filterMap_map_eq_self _ chunkIndexOf _ (fun i => rfl)

/-- Witness for C4 with chunk size 2 and a 3-byte payload: the emitted chunk
indices are exactly `range (ceil(3/2)) = [0, 1]`. -/
theorem sendTrace_shape_witness :
    (1 ≤ 2) ∧
    (sendTrace (fun _ r => (r, none)) (fun _ => 0) false "f" [9,8,7] 2).filterMap
        chunkIndexOf = List.range (totalChunksOf 3 2) :=
  ⟨by decide,
   (sendTrace_shape 2 (by decide) (fun _ r => (r, none)) (fun _ => 0) false "f"
      [9,8,7]).2.2.2.2.2⟩

/-- C5 counterexample: for a zero-byte payload the sender's chunking
computation yields `Math.ceil(0 / CHUNK_SIZE) = 0` chunks (not 1), and the
emitted trace contains no chunk message at all. -/
theorem zero_byte_counterexample :
    totalChunksOf 0 CHUNK_SIZE = 0 ∧
    (sendTrace (fun _ r => (r, none)) (fun _ => 0) false "f" [] CHUNK_SIZE).countP
        (fun m => (chunkIndexOf m).isSome) = 0 := by
  constructor
  · exact totalChunksOf_zero CHUNK_SIZE
  · simp [sendTrace, chunkMessages, totalChunksOf_zero, chunkIndexOf,
      List.countP_cons]

/-- C5 amended: for a zero-byte payload the chunking computation produces 0
chunks, so the sender emits a `file-start` declaring `totalChunks = 0`, no
chunk message, and a `file-end`. -/
theorem zero_byte_trace (c : Nat)
    (encFn : Nat → List Nat → List Nat × Option (List Nat)) (ts : Nat → ℚ)
    (enc : Bool) (fileName : String) :
    totalChunksOf 0 c = 0 ∧ splitChunks [] c = [] ∧
    sendTrace encFn ts enc fileName [] c =
      [FileMessage.fileStart fileName 0 0 enc, FileMessage.fileEnd fileName] := by
  refine ⟨totalChunksOf_zero c, splitChunks_nil c, ?_⟩
  simp [sendTrace, chunkMessages, totalChunksOf_zero]

/-- C6: a send request issued while `isTransferring` is `true` is rejected
(the Send button is disabled, so `sendFile` never runs): the state is
unchanged and no message of a second transfer is emitted. -/
theorem send_while_sending_rejected
    (encFn : Nat → List Nat → List Nat × Option (List Nat)) (ts : Nat → ℚ)
    (c : Nat) (s : SenderState) (h : s.isTransferring = true) :
    sendRequest encFn ts c s = (s, []) := by
  unfold sendRequest
  have hd : sendButtonDisabled s = true := by
    simp [sendButtonDisabled, h]
  simp [hd]

/-- Witness for C6: a fully ready sender that is mid-transfer. -/
theorem send_while_sending_rejected_witness :
    (SenderState.mk (some ("f", [1])) true ConnectionStatus.connected true
        false true).isTransferring = true ∧
    sendRequest (fun _ r => (r, none)) (fun _ => 0) 2
        (SenderState.mk (some ("f", [1])) true ConnectionStatus.connected true
          false true) =
      (SenderState.mk (some ("f", [1])) true ConnectionStatus.connected true
        false true, []) :=
  ⟨rfl, send_while_sending_rejected (fun _ r => (r, none)) (fun _ => 0) 2 _ rfl⟩

/-- C9: a chunk message arriving while `receivingFile.current` is `null` is
ignored completely: the handler performs no slot write, no metrics update and
no state change of any kind. -/
theorem chunk_without_transfer_ignored
    (dec : List Nat → List Nat → Option (List Nat)) (now : ℚ)
    (s : ReceiverState) (data : List Nat) (i k : Nat) (nm : String) (sz : Nat)
    (tsv : ℚ) (iv : Option (List Nat)) (h : s.receivingFile = none) :
    handleReceivedData dec now s (.chunk data i k nm sz tsv iv) = s := by
  unfold handleReceivedData
  rw [h]

/-- Witness for C9 at the initial receiver state. -/
theorem chunk_without_transfer_ignored_witness :
    initialReceiver.receivingFile = none ∧
    handleReceivedData (fun _ _ => none) 0 initialReceiver
        (.chunk [1] 0 1 "f" 1 0 none) = initialReceiver :=
  ⟨rfl, chunk_without_transfer_ignored (fun _ _ => none) 0 initialReceiver
    [1] 0 1 "f" 1 0 none rfl⟩

/-- C10: every `file-start` message unconditionally replaces the inbound
transfer entity with a freshly allocated one (all-empty slot array of length
`totalChunks`, filled count 0, fresh metrics carrying the declared encrypted
flag) — the result does not depend on the previous entity, so an incomplete
previous transfer's chunks and metrics are discarded; the remaining state
fields (delivered downloads, displayed metrics, session key) are untouched. -/
theorem filestart_replaces_entity
    (dec : List Nat → List Nat → Option (List Nat)) (now : ℚ)
    (s s' : ReceiverState) (fileName : String) (fileSize total : Nat)
    (enc : Bool) :
    (handleReceivedData dec now s (.fileStart fileName fileSize total enc)).receivingFile =
      (handleReceivedData dec now s' (.fileStart fileName fileSize total enc)).receivingFile ∧
    (handleReceivedData dec now s (.fileStart fileName fileSize total enc)).receivingFile =
      some
        { name := fileName, size := fileSize,
          chunks := List.replicate total none,
          receivedChunks := 0, totalChunks := total,
          metrics := freshMetrics now enc, encrypted := enc } ∧
    (handleReceivedData dec now s (.fileStart fileName fileSize total enc)).isTransferring = true ∧
    (handleReceivedData dec now s (.fileStart fileName fileSize total enc)).transferProgress = 0 ∧
    (handleReceivedData dec now s (.fileStart fileName fileSize total enc)).downloads = s.downloads ∧
    (handleReceivedData dec now s (.fileStart fileName fileSize total enc)).lastMetrics = s.lastMetrics ∧
    (handleReceivedData dec now s (.fileStart fileName fileSize total enc)).hasKey = s.hasKey :=
  ⟨rfl, rfl, rfl, rfl, rfl, rfl, rfl⟩

/-- Evaluation of `calculatePercentiles` on a non-empty list (the else-branch
of the source's empty-input guard). -/
theorem calculatePercentiles_pos (l : List ℚ) (hl : l.length ≠ 0) :
    calculatePercentiles l =
      { p95 :=
          if (l.insertionSort (· ≤ ·)).getD
              (19 * (l.insertionSort (· ≤ ·)).length / 20) 0 = 0 then
            (l.insertionSort (· ≤ ·)).getD
              ((l.insertionSort (· ≤ ·)).length - 1) 0
          else
            (l.insertionSort (· ≤ ·)).getD
              (19 * (l.insertionSort (· ≤ ·)).length / 20) 0,
        p99 :=
          if (l.insertionSort (· ≤ ·)).getD
              (99 * (l.insertionSort (· ≤ ·)).length / 100) 0 = 0 then
            (l.insertionSort (· ≤ ·)).getD
              ((l.insertionSort (· ≤ ·)).length - 1) 0
          else
            (l.insertionSort (· ≤ ·)).getD
              (99 * (l.insertionSort (· ≤ ·)).length / 100) 0,
        avg := (l.insertionSort (· ≤ ·)).sum /
          ((l.insertionSort (· ≤ ·)).length : ℚ) } := by
  unfold calculatePercentiles
  rw [if_neg hl]

/-- C3 counterexample: on the 21-element latency list of twenty `0`s followed
by `7`, the claimed selection rule gives `p95 = sorted[floor(0.95*21)] =
sorted[19] = 0` (the index 19 is in bounds), but `calculatePercentiles`
returns `7`: the `||` fallback in the source also triggers on a selected
value of `0`, not only out of bounds. -/
theorem percentile_zero_counterexample :
    (calculatePercentiles (List.replicate 20 (0:ℚ) ++ [7])).p95 = 7 ∧
    19 * (List.replicate 20 (0:ℚ) ++ [7]).length / 20 <
      (List.replicate 20 (0:ℚ) ++ [7]).length ∧
    ((List.replicate 20 (0:ℚ) ++ [7]).insertionSort (· ≤ ·)).getD
      (19 * (List.replicate 20 (0:ℚ) ++ [7]).length / 20) 0 = 0 := by
  refine ⟨?_, by norm_num, ?_⟩ <;>
    norm_num [calculatePercentiles, List.insertionSort, List.orderedInsert,
      List.getD, List.replicate]

/-- C3 amended: `calculatePercentiles` sorts ascending (a sorted permutation
of the input); for a non-empty list the selection indices `floor(0.95*n)` and
`floor(0.99*n)` are always strictly in bounds, and the returned p95 (resp.
p99) is the element at that index unless that element equals `0`, in which
case the last element is returned (JS `||` falsiness); `avg` is the
arithmetic mean; the empty list yields all zeros, and the two concrete
vectors of the spec evaluate as claimed. -/
theorem percentile_selection (l : List ℚ) (hl : l ≠ []) :
    calculatePercentiles [] = ⟨0, 0, 0⟩ ∧
    calculatePercentiles [10,20,30,40,50,60,70,80,90,100] = ⟨100, 100, 55⟩ ∧
    calculatePercentiles [50] = ⟨50, 50, 50⟩ ∧
    (l.insertionSort (· ≤ ·)).Sorted (· ≤ ·) ∧
    (l.insertionSort (· ≤ ·)).Perm l ∧
    19 * l.length / 20 < l.length ∧
    99 * l.length / 100 < l.length ∧
    (calculatePercentiles l).avg = l.sum / (l.length : ℚ) ∧
    ((calculatePercentiles l).p95 =
      if (l.insertionSort (· ≤ ·)).getD (19 * l.length / 20) 0 = 0 then
        (l.insertionSort (· ≤ ·)).getD (l.length - 1) 0
      else (l.insertionSort (· ≤ ·)).getD (19 * l.length / 20) 0) ∧
    ((calculatePercentiles l).p99 =
      if (l.insertionSort (· ≤ ·)).getD (99 * l.length / 100) 0 = 0 then
        (l.insertionSort (· ≤ ·)).getD (l.length - 1) 0
      else (l.insertionSort (· ≤ ·)).getD (99 * l.length / 100) 0) := by
  have hlen : l.length ≠ 0 := by
    simpa [List.length_eq_zero] using hl
  have hpos : 0 < l.length := Nat.pos_of_ne_zero hlen
  refine ⟨by norm_num [calculatePercentiles],
    by norm_num [calculatePercentiles, List.insertionSort, List.orderedInsert,
      List.getD],
    by norm_num [calculatePercentiles, List.insertionSort, List.orderedInsert,
      List.getD],
    List.sorted_insertionSort _ l, List.perm_insertionSort _ l,
    ?_, ?_, ?_, ?_, ?_⟩
  · rw [Nat.div_lt_iff_lt_mul (by omega)]
    omega
  · rw [Nat.div_lt_iff_lt_mul (by omega)]
    omega
  · rw [calculatePercentiles_pos l hlen,
      (List.perm_insertionSort (· ≤ ·) l).sum_eq, List.length_insertionSort]
  · rw [calculatePercentiles_pos l hlen, List.length_insertionSort]
  · rw [calculatePercentiles_pos l hlen, List.length_insertionSort]

/-- Witness for C3's amended statement at the list `[0, 3]`. -/
theorem percentile_selection_witness :
    (([0, 3] : List ℚ) ≠ []) ∧
    (calculatePercentiles [0, 3]).avg =
      ([0, 3] : List ℚ).sum / (([0, 3] : List ℚ).length : ℚ) :=
  ⟨by decide, (percentile_selection [0, 3] (by decide)).2.2.2.2.2.2.2.1⟩

/-- Sample inbound entity with one chunk outstanding, for concrete witnesses. -/
def sampleRF : ReceivingFile :=
  { name := "f", size := 2, chunks := [none], receivedChunks := 0,
    totalChunks := 1, metrics := freshMetrics 0 false, encrypted := false }

/-- Sample receiver state holding `sampleRF`. -/
def sampleState : ReceiverState :=
  { receivingFile := some sampleRF, isTransferring := true,
    transferProgress := 0, lastMetrics := none, downloads := [],
    hasKey := false }

/-- Sample encrypted inbound entity with two chunks outstanding. -/
def sampleRFEnc : ReceivingFile :=
  { name := "f", size := 4, chunks := [none, none], receivedChunks := 0,
    totalChunks := 2, metrics := freshMetrics 0 true, encrypted := true }

/-- Sample receiver state holding `sampleRFEnc`, with the session key set. -/
def sampleStateEnc : ReceiverState :=
  { receivingFile := some sampleRFEnc, isTransferring := true,
    transferProgress := 0, lastMetrics := none, downloads := [],
    hasKey := true }

/-- C7: when decryption of a chunk fails, the handler returns early after
recording the latency: no previously filled slot is removed or altered, the
failed chunk is not stored, the filled-slot count is not incremented, no
completion fires (downloads and displayed metrics unchanged), and the inbound
entity remains allocated — so a filled count below `totalChunks` stays below
`totalChunks`. -/
theorem decrypt_failure_recoverable
    (dec : List Nat → List Nat → Option (List Nat)) (now : ℚ)
    (s : ReceiverState) (rf : ReceivingFile) (data : List Nat) (i k : Nat)
    (nm : String) (sz : Nat) (tsv : ℚ) (iv0 : List Nat)
    (hrf : s.receivingFile = some rf) (henc : rf.encrypted = true)
    (hkey : s.hasKey = true) (hdec : dec data iv0 = none) :
    ∃ rf1 : ReceivingFile,
      (handleReceivedData dec now s
          (.chunk data i k nm sz tsv (some iv0))).receivingFile = some rf1 ∧
      rf1.chunks = rf.chunks ∧
      rf1.receivedChunks = rf.receivedChunks ∧
      rf1.totalChunks = rf.totalChunks ∧
      rf1.metrics.bytesTransferred = rf.metrics.bytesTransferred ∧
      rf1.metrics.latencies = rf.metrics.latencies ++ [now - tsv] ∧
      (handleReceivedData dec now s
          (.chunk data i k nm sz tsv (some iv0))).downloads = s.downloads ∧
      (handleReceivedData dec now s
          (.chunk data i k nm sz tsv (some iv0))).lastMetrics = s.lastMetrics ∧
      (rf.receivedChunks < rf.totalChunks →
        rf1.receivedChunks < rf1.totalChunks) := by
  have hstep : handleReceivedData dec now s
      (.chunk data i k nm sz tsv (some iv0)) =
      { s with
        receivingFile :=
          some
            { rf with
              metrics :=
                { rf.metrics with
                  latencies := rf.metrics.latencies ++ [now - tsv] } } } := by
    unfold handleReceivedData
    rw [hrf]
    simp [henc, hkey, hdec]
  exact ⟨{ rf with
            metrics :=
              { rf.metrics with
                latencies := rf.metrics.latencies ++ [now - tsv] } },
    by rw [hstep], rfl, rfl, rfl, rfl, rfl, by rw [hstep],
    by rw [hstep], fun h => h⟩

/-- Witness for C7 with an always-failing decryption oracle. -/
theorem decrypt_failure_recoverable_witness :
    sampleStateEnc.receivingFile = some sampleRFEnc ∧
    (∃ rf1 : ReceivingFile,
      (handleReceivedData (fun _ _ => none) 0 sampleStateEnc
          (.chunk [5] 0 2 "f" 4 0 (some [9]))).receivingFile = some rf1 ∧
      rf1.chunks = sampleRFEnc.chunks ∧
      rf1.receivedChunks = sampleRFEnc.receivedChunks ∧
      rf1.totalChunks = sampleRFEnc.totalChunks ∧
      rf1.metrics.bytesTransferred = sampleRFEnc.metrics.bytesTransferred ∧
      rf1.metrics.latencies = sampleRFEnc.metrics.latencies ++ [0 - 0] ∧
      (handleReceivedData (fun _ _ => none) 0 sampleStateEnc
          (.chunk [5] 0 2 "f" 4 0 (some [9]))).downloads =
        sampleStateEnc.downloads ∧
      (handleReceivedData (fun _ _ => none) 0 sampleStateEnc
          (.chunk [5] 0 2 "f" 4 0 (some [9]))).lastMetrics =
        sampleStateEnc.lastMetrics ∧
      (sampleRFEnc.receivedChunks < sampleRFEnc.totalChunks →
        rf1.receivedChunks < rf1.totalChunks)) :=
  ⟨rfl, decrypt_failure_recoverable (fun _ _ => none) 0 sampleStateEnc
    sampleRFEnc [5] 0 2 "f" 4 0 [9] rfl rfl rfl rfl⟩

/-- C8: the reported throughput is `(bytesTransferred / 1048576) /
elapsedSeconds` (binary megabyte); 10 MiB in 2 s gives exactly 5 MB/s and
1 MiB in 1 s exactly 1 MB/s; the completing chunk computes the whole metrics
record (end time, throughput) at once, and a chunk step that does not
complete the transfer leaves the reported metrics untouched. -/
theorem throughput_formula
    (dec : List Nat → List Nat → Option (List Nat)) (now : ℚ)
    (s : ReceiverState) (rf : ReceivingFile) (data : List Nat) (i k : Nat)
    (nm : String) (sz : Nat) (tsv : ℚ)
    (hrf : s.receivingFile = some rf) (henc : rf.encrypted = false)
    (hfin : rf.receivedChunks + 1 = rf.totalChunks) :
    (∀ (bytes : Nat) (sec : ℚ),
      throughputMBps bytes sec = (bytes : ℚ) / 1048576 / sec) ∧
    throughputMBps (10 * 1048576) 2 = 5 ∧
    throughputMBps 1048576 1 = 1 ∧
    (∃ m : PerformanceMetrics,
      (handleReceivedData dec now s
          (.chunk data i k nm sz tsv none)).lastMetrics = some m ∧
      m.throughput = some (throughputMBps
        (rf.metrics.bytesTransferred + data.length)
        ((now - rf.metrics.startTime) / 1000)) ∧
      m.endTime = some now ∧
      m.bytesTransferred = rf.metrics.bytesTransferred + data.length) ∧
    (∀ (s' : ReceiverState) (rf' : ReceivingFile),
      s'.receivingFile = some rf' → rf'.encrypted = false →
      rf'.receivedChunks + 1 ≠ rf'.totalChunks →
      (handleReceivedData dec now s'
          (.chunk data i k nm sz tsv none)).lastMetrics = s'.lastMetrics) := by
  refine ⟨?_, by norm_num [throughputMBps], by norm_num [throughputMBps],
    ?_, ?_⟩
  · intro bytes sec
    norm_num [throughputMBps]
  · have hstep : (handleReceivedData dec now s
        (.chunk data i k nm sz tsv none)).lastMetrics = some
        { startTime := rf.metrics.startTime
          endTime := some now
          bytesTransferred := rf.metrics.bytesTransferred + data.length
          latencies := rf.metrics.latencies ++ [now - tsv]
          throughput := some (throughputMBps
            (rf.metrics.bytesTransferred + data.length)
            ((now - rf.metrics.startTime) / 1000))
          p95Latency := some
            (calculatePercentiles (rf.metrics.latencies ++ [now - tsv])).p95
          p99Latency := some
            (calculatePercentiles (rf.metrics.latencies ++ [now - tsv])).p99
          averageLatency := some
            (calculatePercentiles (rf.metrics.latencies ++ [now - tsv])).avg
          encrypted := rf.metrics.encrypted } := by
      unfold handleReceivedData
      rw [hrf]
      simp [henc, hfin, throughputMBps]
    exact ⟨_, hstep, rfl, rfl, rfl⟩
  · intro s' rf' hrf' henc' hne
    unfold handleReceivedData
    rw [hrf']
    simp [henc', hne]

/-- Witness for C8: completing a 1-chunk transfer of 2 bytes at `now = 2000`
(start time 0) reports `throughputMBps 2 2`. -/
theorem throughput_formula_witness :
    sampleState.receivingFile = some sampleRF ∧
    (∃ m : PerformanceMetrics,
      (handleReceivedData (fun _ _ => none) 2000 sampleState
          (.chunk [1,2] 0 1 "f" 2 0 none)).lastMetrics = some m ∧
      m.throughput = some (throughputMBps
        (sampleRF.metrics.bytesTransferred + 2)
        ((2000 - sampleRF.metrics.startTime) / 1000)) ∧
      m.endTime = some 2000 ∧
      m.bytesTransferred = sampleRF.metrics.bytesTransferred + 2) :=
  ⟨rfl, (throughput_formula (fun _ _ => none) 2000 sampleState sampleRF
    [1,2] 0 1 "f" 2 0 rfl rfl rfl).2.2.2.1⟩

/-- The slot array of an inbound transfer of `k` slots after exactly the
indices in `M` have been stored, each index `j` carrying `d j`. -/
def slotsSpec (d : Nat → List Nat) (k : Nat) (M : List Nat) :
    List (Option (List Nat)) :=
  (List.range k).map fun j => if j ∈ M then some (d j) else none

theorem slotsSpec_nil (d : Nat → List Nat) (k : Nat) :
    slotsSpec d k [] = List.replicate k none := by
  simp [slotsSpec, List.map_const']

theorem slotsSpec_length (d : Nat → List Nat) (k : Nat) (M : List Nat) :
    (slotsSpec d k M).length = k := by
  simp [slotsSpec]

theorem slotsSpec_getElem (d : Nat → List Nat) (k : Nat) (M : List Nat)
    (j : Nat) :
    (slotsSpec d k M)[j]? =
      if j < k then some (if j ∈ M then some (d j) else none) else none := by
  by_cases h : j < k
  · rw [if_pos h]
    unfold slotsSpec
    rw [List.getElem?_map, List.getElem?_range h]
    rfl
  · rw [if_neg h]
    unfold slotsSpec
    rw [List.getElem?_map, List.getElem?_eq_none (by simpa using Nat.le_of_not_lt h)]
    rfl

theorem slotsSpec_set (d : Nat → List Nat) (k : Nat) (M : List Nat) (i : Nat)
    (hik : i < k) :
    (slotsSpec d k M).set i (some (d i)) = slotsSpec d k (M ++ [i]) := by
  apply List.ext_getElem?
  intro j
  rw [List.getElem?_set, slotsSpec_getElem, slotsSpec_getElem, slotsSpec_length]
  by_cases hij : i = j
  · subst hij
    rw [if_pos rfl, if_pos hik, if_pos hik,
      if_pos (by simp : i ∈ M ++ [i])]
  · rw [if_neg hij]
    by_cases hj : j < k
    · rw [if_pos hj, if_pos hj]
      have hmem : (j ∈ M ++ [i]) ↔ j ∈ M := by
        rw [List.mem_append]
        constructor
        · intro h
          cases h with
          | inl h => exact h
          | inr h => exact absurd (List.mem_singleton.mp h).symm hij
        · exact Or.inl
      by_cases hm : j ∈ M
      · rw [if_pos hm, if_pos (hmem.mpr hm)]
      · rw [if_neg hm, if_neg (fun h => hm (hmem.mp h))]
    · rw [if_neg hj, if_neg hj]

theorem nodup_bounded_length_le (l : List Nat) (k : Nat) (hnd : l.Nodup)
    (hb : ∀ j ∈ l, j < k) : l.length ≤ k := by
  have hsub : l ⊆ List.range k := fun x hx => List.mem_range.mpr (hb x hx)
  simpa using (List.subperm_of_subset hnd hsub).length_le

theorem nodup_bounded_full_cover (l : List Nat) (k : Nat) (hnd : l.Nodup)
    (hb : ∀ j ∈ l, j < k) (hlen : l.length = k) : ∀ j, j < k → j ∈ l := by
  have hsub : l ⊆ List.range k := fun x hx => List.mem_range.mpr (hb x hx)
  have hperm : l.Perm (List.range k) :=
    (List.subperm_of_subset hnd hsub).perm_of_length_le (by simp [hlen])
  intro j hj
  exact hperm.mem_iff.mpr (List.mem_range.mpr hj)

theorem slotsSpec_full (d : Nat → List Nat) (k : Nat) (M : List Nat)
    (hcov : ∀ j, j < k → j ∈ M) :
    slotsSpec d k M = (List.range k).map fun j => some (d j) := by
  unfold slotsSpec
  exact List.map_congr_left fun j hj => by
    rw [if_pos (hcov j (List.mem_range.mp hj))]

theorem assembleSlots_all_filled (d : Nat → List Nat) (k : Nat) :
    assembleSlots ((List.range k).map fun j => some (d j)) =
      ((List.range k).map d).flatten := by
  unfold assembleSlots
  rw [List.map_map]
  rfl

/-- Evaluation of one `chunk` message on an allocated, unencrypted inbound
transfer: the slot at `chunkIndex` is written, the arrival counter is
incremented, and the transfer completes exactly when the incremented counter
reaches `totalChunks`. -/
theorem step_chunk_plain (dec : List Nat → List Nat → Option (List Nat))
    (now tsv : ℚ) (s : ReceiverState) (rf : ReceivingFile) (data : List Nat)
    (i k' : Nat) (nm : String) (sz : Nat)
    (hrf : s.receivingFile = some rf) (henc : rf.encrypted = false) :
    handleReceivedData dec now s (.chunk data i k' nm sz tsv none) =
      if rf.receivedChunks + 1 = rf.totalChunks then
        { s with
          receivingFile := none
          isTransferring := false
          transferProgress := 100
          lastMetrics :=
            some
              { startTime := rf.metrics.startTime
                endTime := some now
                bytesTransferred := rf.metrics.bytesTransferred + data.length
                latencies := rf.metrics.latencies ++ [now - tsv]
                throughput := some (throughputMBps
                  (rf.metrics.bytesTransferred + data.length)
                  ((now - rf.metrics.startTime) / 1000))
                p95Latency := some (calculatePercentiles
                  (rf.metrics.latencies ++ [now - tsv])).p95
                p99Latency := some (calculatePercentiles
                  (rf.metrics.latencies ++ [now - tsv])).p99
                averageLatency := some (calculatePercentiles
                  (rf.metrics.latencies ++ [now - tsv])).avg
                encrypted := rf.metrics.encrypted }
          downloads := s.downloads ++
            [(assembleSlots (rf.chunks.set i (some data)), rf.name)] }
      else
        { s with
          receivingFile :=
            some
              { rf with
                chunks := rf.chunks.set i (some data)
                receivedChunks := rf.receivedChunks + 1
                metrics :=
                  { rf.metrics with
                    latencies := rf.metrics.latencies ++ [now - tsv]
                    bytesTransferred :=
                      rf.metrics.bytesTransferred + data.length } }
          transferProgress :=
            ((rf.receivedChunks : ℚ) + 1) / (rf.totalChunks : ℚ) * 100 } := by
  unfold handleReceivedData
  rw [hrf]
  by_cases hfin : rf.receivedChunks + 1 = rf.totalChunks
  · rw [if_pos hfin]
    simp [henc, hfin, throughputMBps]
  · rw [if_neg hfin]
    simp [henc, hfin]

/-- Main run lemma for C2: starting from an allocated, unencrypted inbound
transfer of `k` slots that has already stored exactly the indices `M`,
processing chunk events for the further indices `L` (all in range, and
`M ++ L` duplicate-free) fills exactly the slots `M ++ L`; the transfer
completes precisely when `M` and `L` together count `k` arrivals, and the
delivered payload is the index-ordered concatenation `d 0 ++ … ++ d (k-1)`,
independent of the arrival order `L`. -/
theorem run_distinct_aux (dec : List Nat → List Nat → Option (List Nat))
    (d : Nat → List Nat) (k : Nat) :
    ∀ (L M : List Nat) (s : ReceiverState) (rf : ReceivingFile),
      s.receivingFile = some rf → rf.encrypted = false →
      rf.totalChunks = k → rf.chunks = slotsSpec d k M →
      rf.receivedChunks = M.length → M.length < k →
      (∀ j ∈ M, j < k) → (∀ j ∈ L, j < k) → (M ++ L).Nodup →
      ((M.length + L.length < k →
        ∃ rf' : ReceivingFile,
          (runReceiver dec s (L.map (chunkEvent d))).receivingFile = some rf' ∧
          rf'.encrypted = false ∧ rf'.totalChunks = k ∧
          rf'.name = rf.name ∧
          rf'.chunks = slotsSpec d k (M ++ L) ∧
          rf'.receivedChunks = M.length + L.length ∧
          (runReceiver dec s (L.map (chunkEvent d))).downloads = s.downloads) ∧
      (M.length + L.length = k →
        (runReceiver dec s (L.map (chunkEvent d))).receivingFile = none ∧
        (runReceiver dec s (L.map (chunkEvent d))).downloads =
          s.downloads ++ [(((List.range k).map d).flatten, rf.name)])) := by
  intro L
  induction L with
  | nil =>
    intro M s rf hrf henc htot hchunks hcount hMk hMb hLb hnd
    refine ⟨fun _ => ⟨rf, ?_, henc, htot, rfl, ?_, ?_, rfl⟩,
      fun habs => absurd habs (by simp only [List.length_nil]; omega)⟩
    · simpa [runReceiver] using hrf
    · simpa using hchunks
    · simpa using hcount
  | cons i L ih =>
    intro M s rf hrf henc htot hchunks hcount hMk hMb hLb hnd
    have hik : i < k := hLb i (List.mem_cons_self i L)
    have hstep := step_chunk_plain dec 0 0 s rf (d i) i 0 "" 0 hrf henc
    have hrun : runReceiver dec s ((i :: L).map (chunkEvent d)) =
        runReceiver dec
          (handleReceivedData dec 0 s (.chunk (d i) i 0 "" 0 0 none))
          (L.map (chunkEvent d)) := rfl
    have hall : ∀ j ∈ M ++ i :: L, j < k := by
      intro j hj
      rcases List.mem_append.mp hj with h | h
      · exact hMb j h
      · exact hLb j h
    have hlen_le : (M ++ i :: L).length ≤ k :=
      nodup_bounded_length_le _ k hnd hall
    by_cases hfin : rf.receivedChunks + 1 = rf.totalChunks
    · have hk1 : M.length + 1 = k := by
        rw [hcount, htot] at hfin
        exact hfin
      have hL0 : L = [] := by
        apply List.eq_nil_of_length_eq_zero
        simp [List.length_append] at hlen_le
        omega
      subst hL0
      have hnd' : (M ++ [i]).Nodup := hnd
      have hcov : ∀ j, j < k → j ∈ M ++ [i] :=
        nodup_bounded_full_cover _ k hnd' hall
          (by simp [List.length_append]; omega)
      have hassemble : assembleSlots (rf.chunks.set i (some (d i))) =
          ((List.range k).map d).flatten := by
        rw [hchunks, slotsSpec_set d k M i hik, slotsSpec_full d k _ hcov,
          assembleSlots_all_filled]
      constructor
      · intro habs
        simp [List.length_append] at habs
        omega
      · intro _
        rw [hrun, hstep, if_pos hfin]
        constructor
        · rfl
        · show s.downloads ++
              [(assembleSlots (rf.chunks.set i (some (d i))), rf.name)] =
            s.downloads ++ [(((List.range k).map d).flatten, rf.name)]
          rw [hassemble]
    · have hM1k : M.length + 1 < k := by
        rw [hcount, htot] at hfin
        simp [List.length_append] at hlen_le
        omega
      have hs1 := hstep.trans (if_neg hfin)
      have hihres := ih (M ++ [i])
        (handleReceivedData dec 0 s (.chunk (d i) i 0 "" 0 0 none))
        { rf with
          chunks := rf.chunks.set i (some (d i))
          receivedChunks := rf.receivedChunks + 1
          metrics :=
            { rf.metrics with
              latencies := rf.metrics.latencies ++ [(0 : ℚ) - 0]
              bytesTransferred :=
                rf.metrics.bytesTransferred + (d i).length } }
        (by rw [hs1]) henc htot
        (by
          show rf.chunks.set i (some (d i)) = slotsSpec d k (M ++ [i])
          rw [hchunks, slotsSpec_set d k M i hik])
        (by
          show rf.receivedChunks + 1 = (M ++ [i]).length
          rw [hcount]
          simp)
        (by simp [List.length_append]; omega)
        (by
          intro j hj
          rcases List.mem_append.mp hj with h | h
          · exact hMb j h
          · rw [List.mem_singleton.mp h]
            exact hik)
        (fun j hj => hLb j (List.mem_cons_of_mem i hj))
        (by
          have heq : (M ++ [i]) ++ L = M ++ i :: L := by simp
          rw [heq]
          exact hnd)
      constructor
      · intro hlt
        obtain ⟨rf', h1, h2, h3, h4, h5, h6, h7⟩ := hihres.1 (by
          simp [List.length_append] at hlt ⊢
          omega)
        refine ⟨rf', ?_, h2, h3, h4, ?_, ?_, ?_⟩
        · rw [hrun]
          exact h1
        · rw [h5]
          have heq : (M ++ [i]) ++ L = M ++ i :: L := by simp
          rw [heq]
        · simp [List.length_append] at h6 ⊢
          omega
        · rw [hrun]
          exact h7.trans (by rw [hs1])
      · intro heqk
        obtain ⟨h1, h2⟩ := hihres.2 (by
          simp [List.length_append] at heqk ⊢
          omega)
        constructor
        · rw [hrun]
          exact h1
        · rw [hrun]
          refine h2.trans ?_
          rw [hs1]

/-- Processing a chunk message never alters any slot other than the one at
the message's `chunkIndex`, whatever the decryption outcome: duplicate or
out-of-order arrivals cannot corrupt other slots. -/
theorem chunk_step_slot_frame (dec : List Nat → List Nat → Option (List Nat))
    (now tsv : ℚ) (s : ReceiverState) (rf rf' : ReceivingFile)
    (data : List Nat) (i k' : Nat) (nm : String) (sz : Nat)
    (iv : Option (List Nat)) (j : Nat)
    (hrf : s.receivingFile = some rf)
    (hrf' : (handleReceivedData dec now s
        (.chunk data i k' nm sz tsv iv)).receivingFile = some rf')
    (hij : j ≠ i) : rf'.chunks[j]? = rf.chunks[j]? := by
  unfold handleReceivedData at hrf'
  rw [hrf] at hrf'
  dsimp only at hrf'
  by_cases hcond : (rf.encrypted = true ∧ s.hasKey = true ∧ iv.isSome = true)
  · rw [if_pos hcond] at hrf'
    cases hdec : dec data (iv.getD []) with
    | none =>
      rw [hdec] at hrf'
      dsimp only at hrf'
      cases hrf'
      rfl
    | some c =>
      rw [hdec] at hrf'
      dsimp only at hrf'
      by_cases hfin : rf.receivedChunks + 1 = rf.totalChunks
      · rw [if_pos hfin] at hrf'
        exact absurd hrf' (by simp)
      · rw [if_neg hfin] at hrf'
        cases hrf'
        exact List.getElem?_set_ne (Ne.symm hij)
  · rw [if_neg hcond] at hrf'
    dsimp only at hrf'
    by_cases hfin : rf.receivedChunks + 1 = rf.totalChunks
    · rw [if_pos hfin] at hrf'
      exact absurd hrf' (by simp)
    · rw [if_neg hfin] at hrf'
      cases hrf'
      exact List.getElem?_set_ne (Ne.symm hij)

/-- C2 counterexample: with `totalChunks = 2`, the same chunk index 0
arriving twice fires completion — the handler compares the arrival counter
(`receivedChunks`, incremented on every stored chunk, duplicates included)
with `totalChunks`, not the filled-slot count: after the duplicate the entity
is cleared and a file is delivered although slot 1 was never filled. -/
theorem duplicate_fires_completion_counterexample :
    ((handleReceivedData (fun _ _ => none) 0
        (handleReceivedData (fun _ _ => none) 0 initialReceiver
          (.fileStart "f" 6 2 false))
        (.chunk [1,2,3] 0 2 "f" 6 0 none)).receivingFile.map
          fun rf => rf.chunks) = some [some [1,2,3], none] ∧
    (handleReceivedData (fun _ _ => none) 0
      (handleReceivedData (fun _ _ => none) 0
        (handleReceivedData (fun _ _ => none) 0 initialReceiver
          (.fileStart "f" 6 2 false))
        (.chunk [1,2,3] 0 2 "f" 6 0 none))
      (.chunk [1,2,3] 0 2 "f" 6 0 none)).receivingFile = none ∧
    (handleReceivedData (fun _ _ => none) 0
      (handleReceivedData (fun _ _ => none) 0
        (handleReceivedData (fun _ _ => none) 0 initialReceiver
          (.fileStart "f" 6 2 false))
        (.chunk [1,2,3] 0 2 "f" 6 0 none))
      (.chunk [1,2,3] 0 2 "f" 6 0 none)).downloads.map Prod.fst = [[1,2,3]] :=
  ⟨rfl, rfl, rfl⟩

/-- C2 amended: (a) a chunk at index `i` never alters the occupancy of any
slot `j ≠ i` (idempotent slot writes, whatever the decryption outcome);
(b) from a fresh unencrypted `file-start` of `k ≥ 1` slots, for any
duplicate-free in-range arrival order `L` the transfer completes exactly when
`L` counts `k` arrivals — for distinct indices this is exactly "every slot in
`[0, k)` is filled"; (c) on completion the delivered payload is the
concatenation of the chunk payloads in index order `0..k-1`, independent of
the arrival order.  (For arrival sequences with duplicates the completion
test fires on the arrival count, which the counterexample shows can happen
with unfilled slots.) -/
theorem distinct_chunks_completion
    (dec : List Nat → List Nat → Option (List Nat))
    (d : Nat → List Nat) (k : Nat) (L : List Nat) (name : String) (sz : Nat)
    (hk : 1 ≤ k) (hnd : L.Nodup) (hb : ∀ j ∈ L, j < k) :
    (∀ (now tsv : ℚ) (s : ReceiverState) (rf rf' : ReceivingFile)
        (data : List Nat) (i k' : Nat) (nm : String) (sz' : Nat)
        (iv : Option (List Nat)) (j : Nat),
      s.receivingFile = some rf →
      (handleReceivedData dec now s
          (.chunk data i k' nm sz' tsv iv)).receivingFile = some rf' →
      j ≠ i → rf'.chunks[j]? = rf.chunks[j]?) ∧
    ((runReceiver dec
        (handleReceivedData dec 0 initialReceiver (.fileStart name sz k false))
        (L.map (chunkEvent d))).receivingFile = none ↔ L.length = k) ∧
    (L.length = k →
      (runReceiver dec
        (handleReceivedData dec 0 initialReceiver (.fileStart name sz k false))
        (L.map (chunkEvent d))).downloads =
      [(((List.range k).map d).flatten, name)]) := by
  have hs0 : (handleReceivedData dec 0 initialReceiver
      (.fileStart name sz k false)).receivingFile = some
      { name := name, size := sz, chunks := List.replicate k none,
        receivedChunks := 0, totalChunks := k,
        metrics := freshMetrics 0 false, encrypted := false } := rfl
  have haux := run_distinct_aux dec d k L []
    (handleReceivedData dec 0 initialReceiver (.fileStart name sz k false))
    { name := name, size := sz, chunks := List.replicate k none,
      receivedChunks := 0, totalChunks := k,
      metrics := freshMetrics 0 false, encrypted := false }
    hs0 rfl rfl (by rw [slotsSpec_nil]) rfl
    (by simp only [List.length_nil]; omega)
    (fun j hj => absurd hj (List.not_mem_nil j)) hb (by simpa using hnd)
  refine ⟨fun now tsv s rf rf' data i k' nm sz' iv j h1 h2 h3 =>
    chunk_step_slot_frame dec now tsv s rf rf' data i k' nm sz' iv j h1 h2 h3,
    ⟨?_, ?_⟩, ?_⟩
  · intro hnone
    have hle : L.length ≤ k := nodup_bounded_length_le L k hnd hb
    by_contra hne
    obtain ⟨rf', hsome, _⟩ := haux.1 (by
      simp only [List.length_nil] at hne ⊢
      omega)
    rw [hnone] at hsome
    cases hsome
  · intro heq
    exact (haux.2 (by simpa using heq)).1
  · intro heq
    have h := (haux.2 (by simpa using heq)).2
    simpa using h

/-- Witness for C2's amended statement: two chunks arriving out of order
(index 1 first, then index 0) assemble in index order. -/
theorem distinct_chunks_completion_witness :
    (([1, 0] : List Nat).Nodup) ∧
    (runReceiver (fun _ _ => none)
        (handleReceivedData (fun _ _ => none) 0 initialReceiver
          (.fileStart "f" 2 2 false))
        ([1, 0].map (chunkEvent fun j => [j]))).downloads =
      [(((List.range 2).map fun j => [j]).flatten, "f")] :=
  ⟨by decide, (distinct_chunks_completion (fun _ _ => none) (fun j => [j]) 2
    [1, 0] "f" 2 (by decide) (by decide) (by decide)).2.2 (by decide)⟩

end FileSharing
